import Mathlib

/-!
Verification development for the pluggable AI agent backend
(conversation memory, streaming RAG ingestion, plugin dispatch,
agent orchestration).

The TypeScript sources are shallowly embedded as Lean definitions:

* JavaScript strings become `String` (a structure over `List Char`);
  the JS helpers actually used by the code (`trim`, `split(/\s+/)`,
  `slice(-n)`, `join(' ')`, `includes`, `replace(/\s+/g,'')`) are
  modelled explicitly below with their JS semantics, including the
  `slice(-0) = slice(0)` corner case.
* JS numbers that the code only ever uses integrally (timestamps,
  counts) become `Int`/`Nat`; similarity scores and arithmetic
  results become `Rat` (exact on every value the claims touch).
* Effectful collaborators (the LLM, the Weaviate index, `fetch`,
  `Math.random`, `Date.now`, `uuidv4`) are passed in as explicit
  parameters, so every pipeline is a pure function of its inputs
  plus the collaborator behaviour.
* Thrown exceptions become `Option`/`Except` results.
-/

/-! ## JS character and string primitives -/

/-- Whitespace characters recognised by the JS regular expression
class backslash-s and by `String.prototype.trim` (ASCII subset; the
sources only ever meet ASCII whitespace). -/
def isWsChar (c : Char) : Bool :=
  c = ' ' || c = '\t' || c = '\n' || c = '\r' || c = Char.ofNat 11 || c = Char.ofNat 12

/-- ASCII letter, the character class a-zA-Z used by the weather regex. -/
def isAsciiLetter (c : Char) : Bool :=
  ('a' ≤ c && c ≤ 'z') || ('A' ≤ c && c ≤ 'Z')

/-- Characters of `String.prototype.trim`: drop leading and trailing
whitespace of a character list. -/
def trimChars (l : List Char) : List Char :=
  ((l.dropWhile isWsChar).reverse.dropWhile isWsChar).reverse

/-- Model of `s.trim()`. -/
def jsTrim (s : String) : String :=
  ⟨trimChars s.data⟩

/-- Model of `s.replace(/\s+/g, '')`: remove every whitespace character. -/
def jsStripWs (s : String) : String :=
  ⟨s.data.filter (fun c => !isWsChar c)⟩

/-- Character-list core of `content.split(/\s+/)`: cut at maximal
whitespace runs.  As in JS, a leading run produces a leading empty
fragment, a trailing run a trailing empty fragment, and the empty
string splits to one empty fragment. -/
def splitWsGo (fuel : Nat) (l : List Char) : List (List Char) :=
  match fuel with
  | 0 => [l.takeWhile (fun x => !isWsChar x)]
  | fuel + 1 =>
    match l.dropWhile (fun x => !isWsChar x) with
    | [] => [l.takeWhile (fun x => !isWsChar x)]
    | _ :: rs =>
      l.takeWhile (fun x => !isWsChar x) :: splitWsGo fuel (rs.dropWhile isWsChar)

/-- Entry point of the splitter; the remaining text shrinks by at
least one character per produced fragment, so the fuel never runs
out. -/
def splitWsChars (l : List Char) : List (List Char) :=
  splitWsGo l.length l

/-- Model of `content.split(/\s+/)`. -/
def jsSplitWs (content : String) : List String :=
  (splitWsChars content.data).map (fun l => ⟨l⟩)

/-- The actual whitespace-delimited tokens of a text: the split with
the boundary artifacts (empty fragments) removed. -/
def wsTokens (content : String) : List String :=
  (jsSplitWs content).filter (fun w => w ≠ "")

/-- Model of `arr.slice(-n)` for a JS array.  For `n > 0` this keeps
the last `n` elements; for `n = 0` JS evaluates `-0 === 0` and
`slice(0)` returns the whole array. -/
def jsSliceNeg (n : Nat) (l : List α) : List α :=
  if n = 0 then l else l.drop (l.length - n)

/-- Model of `arr.join(' ')` for an array of strings. -/
def joinSp : List String → String
  | [] => ""
  | [w] => w
  | w :: x :: ws => w ++ " " ++ joinSp (x :: ws)

/-- Model of `arr.join(sep)`. -/
def joinWith (sep : String) : List String → String
  | [] => ""
  | [w] => w
  | w :: x :: ws => w ++ sep ++ joinWith sep (x :: ws)

/-- Case-insensitive ASCII prefix stripping: if the lowercase image of
the pattern is a prefix of the lowercase image of the text, return the
remaining text. Models anchored matching of a literal with the i flag. -/
def stripCI : List Char → List Char → Option (List Char)
  | [], l => some l
  | _ :: _, [] => none
  | p :: ps, c :: cs => if c.toLower = p.toLower then stripCI ps cs else none

/-- Does the character list contain the given contiguous sublist?
Models `s.includes(sub)`. -/
def containsSub (l sub : List Char) : Bool :=
  l.tails.any (fun t => sub.isPrefixOf t)

/-- Model of `s.toLowerCase()` (ASCII). -/
def toLowerStr (s : String) : String :=
  ⟨s.data.map Char.toLower⟩

/-- Model of `sLower.includes(pat)` as used on lowercased messages. -/
def jsIncludes (s pat : String) : Bool :=
  containsSub s.data pat.data

/-! ## Math plugin (src/services/plugins/math.ts)

`MathPlugin.evaluate` cleans the expression, applies a safety check and
delegates to the external mathjs evaluator.  The mathjs evaluator is an
external collaborator; for the arithmetic fragment the safety check
admits (digits, decimal points, + - * / and parentheses) it is a
standard precedence-respecting evaluator, modelled here by a
recursive-descent parser over exact rationals.  Division by zero, which
in JS produces a non-finite number that the source then rejects via its
`isFinite` guard, is folded into the `none` result. -/

/-- Parse a leading decimal literal: digits, or digits dot digits,
or dot digits, as mathjs accepts inside expressions. -/
def parseNumber (l : List Char) : Option (Rat × List Char) :=
  let intPart := l.takeWhile Char.isDigit
  let rest := l.drop intPart.length
  match rest with
  | '.' :: rest2 =>
    let fracPart := rest2.takeWhile Char.isDigit
    let rest3 := rest2.drop fracPart.length
    if intPart.isEmpty && fracPart.isEmpty then none
    else
      let iv : Nat := intPart.foldl (fun a c => a * 10 + (c.toNat - 48)) 0
      let fv : Nat := fracPart.foldl (fun a c => a * 10 + (c.toNat - 48)) 0
      some ((iv : Rat) + (fv : Rat) / ((10 : Rat) ^ fracPart.length), rest3)
  | _ =>
    if intPart.isEmpty then none
    else
      let iv : Nat := intPart.foldl (fun a c => a * 10 + (c.toNat - 48)) 0
      some ((iv : Rat), rest)

mutual

/-- Factor: a number, a parenthesised expression, or a unary sign. -/
def parseFactor (fuel : Nat) (l : List Char) : Option (Rat × List Char) :=
  match fuel with
  | 0 => none
  | fuel + 1 =>
    match l with
    | '(' :: rest =>
      match parseExpr fuel rest with
      | some (v, ')' :: rest2) => some (v, rest2)
      | _ => none
    | '-' :: rest => (parseFactor fuel rest).map (fun p => (-p.1, p.2))
    | '+' :: rest => parseFactor fuel rest
    | _ => parseNumber l

/-- Left-associated chain of * and / applications. -/
def parseTermRest (fuel : Nat) (acc : Rat) (l : List Char) : Option (Rat × List Char) :=
  match fuel with
  | 0 => none
  | fuel + 1 =>
    match l with
    | '*' :: rest =>
      match parseFactor fuel rest with
      | some (v, rest2) => parseTermRest fuel (acc * v) rest2
      | none => none
    | '/' :: rest =>
      match parseFactor fuel rest with
      | some (v, rest2) =>
        if v = 0 then none else parseTermRest fuel (acc / v) rest2
      | none => none
    | _ => some (acc, l)

/-- Term: factors combined by * and /. -/
def parseTerm (fuel : Nat) (l : List Char) : Option (Rat × List Char) :=
  match fuel with
  | 0 => none
  | fuel + 1 =>
    match parseFactor fuel l with
    | some (v, rest) => parseTermRest fuel v rest
    | none => none

/-- Left-associated chain of + and - applications. -/
def parseExprRest (fuel : Nat) (acc : Rat) (l : List Char) : Option (Rat × List Char) :=
  match fuel with
  | 0 => none
  | fuel + 1 =>
    match l with
    | '+' :: rest =>
      match parseTerm fuel rest with
      | some (v, rest2) => parseExprRest fuel (acc + v) rest2
      | none => none
    | '-' :: rest =>
      match parseTerm fuel rest with
      | some (v, rest2) => parseExprRest fuel (acc - v) rest2
      | none => none
    | _ => some (acc, l)

/-- Expression: terms combined by + and -. -/
def parseExpr (fuel : Nat) (l : List Char) : Option (Rat × List Char) :=
  match fuel with
  | 0 => none
  | fuel + 1 =>
    match parseTerm fuel l with
    | some (v, rest) => parseExprRest fuel v rest
    | none => none

end

/-- Model of the mathjs `evaluate` collaborator on the guarded
arithmetic fragment: parse and evaluate with standard precedence;
`none` stands for an evaluation error or a non-finite result. -/
def mathEval (s : String) : Option Rat :=
  match parseExpr (2 * s.data.length + 4) s.data with
  | some (v, []) => some v
  | _ => none

/-- Result record of the math plugin (the effectful `timestamp` field
of the source record is the caller's clock and is omitted here). -/
structure MathResult where
  expression : String
  result : Rat
  deriving Repr, DecidableEq

/-- Characters admitted by the safety regex of `isSafeExpression`:
digits, + - * / ( ) . and whitespace. -/
def mathCharAllowed (c : Char) : Bool :=
  c.isDigit || c = '+' || c = '-' || c = '*' || c = '/' ||
    c = '(' || c = ')' || c = '.' || isWsChar c

namespace MathPlugin

/-- Model of `MathPlugin.isSafeExpression`: the whole string matches
the safety character class (nonempty, by the regex +), does not
contain the substring /0, and has balanced parenthesis counts. -/
def isSafeExpression (expression : String) : Bool :=
  (!expression.data.isEmpty && expression.data.all mathCharAllowed)
    && !containsSub expression.data ['/', '0']
    && (expression.data.count '(' = expression.data.count ')')

/-- Model of `MathPlugin.evaluate`: strip whitespace, reject unsafe
expressions, evaluate with mathjs; any thrown error becomes `none`.
The typeof-number and isFinite guards of the source are subsumed by
`mathEval` returning `none` on non-finite results. -/
def evaluate (expression : String) : Option MathResult :=
  let cleanExpression := jsStripWs expression
  if !isSafeExpression cleanExpression then none
  else
    match mathEval cleanExpression with
    | some result => some ⟨cleanExpression, result⟩
    | none => none

end MathPlugin

/-! ## Memory service (src/services/memory.ts, class MemoryService)

Sessions live in a JS `Map<string, SessionMemory>`, modelled as an
association list in insertion order (JS `Map` preserves insertion
order; `set` on an existing key overwrites in place).  `Date` values
become epoch milliseconds (`Int`), `uuidv4` ids become caller-supplied
`Nat` parameters. -/

/-- Message role. -/
inductive Role where
  | user
  | assistant
  deriving Repr, DecidableEq

/-- Rendering of a role as in the TS string union. -/
def Role.toStr : Role → String
  | .user => "user"
  | .assistant => "assistant"

/-- A stored message (interface MemoryMessage). -/
structure MemoryMessage where
  id : Nat
  role : Role
  content : String
  timestamp : Int
  deriving Repr, DecidableEq

/-- A session (interface SessionMemory). -/
structure SessionMemory where
  sessionId : String
  messages : List MemoryMessage
  createdAt : Int
  lastAccessed : Int
  maxMessages : Nat
  deriving Repr, DecidableEq

/-- The sessions map of the MemoryService. -/
abbrev Store := List (String × SessionMemory)

/-- Lookup in the sessions map (Map.prototype.get). -/
def mapGet (m : Store) (k : String) : Option SessionMemory :=
  match m with
  | [] => none
  | p :: rest => if p.1 = k then some p.2 else mapGet rest k

/-- Update in the sessions map (Map.prototype.set): overwrite the
entry in place if the key exists, append otherwise. -/
def mapSet (m : Store) (k : String) (v : SessionMemory) : Store :=
  match m with
  | [] => [(k, v)]
  | p :: rest => if p.1 = k then (k, v) :: rest else p :: mapSet rest k v

/-- Removal from the sessions map (Map.prototype.delete; keys are
unique in a Map, so filtering the key out is deletion). -/
def mapDeleteKey (m : Store) (k : String) : Store :=
  m.filter (fun p => decide (p.1 ≠ k))

/-- Core of `MemoryService.addMessage` on the message list of one
session: push the new message, then keep only the last `maxMessages`
via `messages.slice(-maxMessages)` when over the bound. -/
def addMessageList (maxMessages : Nat) (msgs : List MemoryMessage)
    (message : MemoryMessage) : List MemoryMessage :=
  let msgs' := msgs ++ [message]
  if maxMessages < msgs'.length then jsSliceNeg maxMessages msgs' else msgs'

/-- Model of `MemoryService.addMessage`: create the session on first
use (with the configured `maxMessages`), append the new message,
update `lastAccessed`, truncate from the front when over the bound.
`newId` stands for `uuidv4()` and `now` for `new Date()`. -/
def storeAddMessage (configMaxMessages : Nat) (sessions : Store) (sid : String)
    (newId : Nat) (role : Role) (content : String) (now : Int) : Store :=
  let message : MemoryMessage := ⟨newId, role, content, now⟩
  let session : SessionMemory :=
    match mapGet sessions sid with
    | some s => s
    | none => ⟨sid, [], now, now, configMaxMessages⟩
  mapSet sessions sid
    { session with
      messages := addMessageList session.maxMessages session.messages message
      lastAccessed := now }

/-- Model of `MemoryService.getMemory`: return the session and touch
its `lastAccessed` timestamp on a hit. -/
def getMemoryStore (sessions : Store) (sid : String) (now : Int) :
    Option SessionMemory × Store :=
  match mapGet sessions sid with
  | some s =>
    let s' := { s with lastAccessed := now }
    (some s', mapSet sessions sid s')
  | none => (none, sessions)

/-- Summary record (interface MemorySummary); `sessionAge` is in
minutes. -/
structure MemorySummary where
  lastMessages : List MemoryMessage
  totalMessages : Nat
  sessionAge : Int
  deriving Repr, DecidableEq

/-- Model of `MemoryService.getSummary`: a zero summary for an absent
session, otherwise the last `messageCount` messages (via
`slice(-messageCount)`), the current retained count, and the floored
age in minutes.  It reads the session through `getMemory`, so the
store it returns carries that lookup's `lastAccessed` touch. -/
def getSummaryStore (sessions : Store) (sid : String) (now : Int)
    (messageCount : Nat) : MemorySummary × Store :=
  match getMemoryStore sessions sid now with
  | (none, st) => (⟨[], 0, 0⟩, st)
  | (some s, st) =>
    (⟨jsSliceNeg messageCount s.messages, s.messages.length,
      Int.fdiv (now - s.createdAt) (1000 * 60)⟩, st)

/-- Model of `MemoryService.getFormattedSummary`: format the summary
produced by `getSummary` as a display string. -/
def getFormattedSummaryStore (sessions : Store) (sid : String) (now : Int)
    (messageCount : Nat) : String × Store :=
  let (summary, st) := getSummaryStore sessions sid now messageCount
  if summary.lastMessages.isEmpty then
    ("No previous conversation history.", st)
  else
    let formattedMessages :=
      joinWith "\n"
        (summary.lastMessages.map (fun msg => msg.role.toStr ++ ": " ++ msg.content))
    ("Previous conversation (last " ++ toString summary.lastMessages.length ++
      " messages):\n" ++ formattedMessages, st)

/-- Model of `MemoryService.cleanupOldSessions`: collect the ids of
sessions whose `lastAccessed` is strictly before `now` minus the age
bound, then delete each collected id.  The TS method has return type
`Promise<void>`, so the value component of the result is `Unit`. -/
def cleanupOldSessions (sessions : Store) (now : Int) (maxAgeMinutes : Int) :
    Store × Unit :=
  let cutoff := now - maxAgeMinutes * 60 * 1000
  let sessionsToDelete :=
    (sessions.filter (fun p => decide (p.2.lastAccessed < cutoff))).map (fun p => p.1)
  (sessionsToDelete.foldl mapDeleteKey sessions, ())

/-! ## Retrieval (src/services/rag-streaming.ts, StreamingRAGService.search)

The Weaviate client is an external collaborator exposing
`search(query, [], limit) -> ranked results`; it is modelled as a
function from query and limit to `none` (the call threw) or a result
list.  Scores are exact rationals. -/

/-- A search hit as returned by the Weaviate service wrapper
(interface SearchResult). -/
structure SearchResult where
  id : String
  content : String
  source : String
  score : Rat
  metadata : List (String × String)
  deriving Repr, DecidableEq

/-- Model of `StreamingRAGService.search`: ask the backend for at most
`maxSearchResults` hits, keep those scoring at least
`similarityThreshold`; if the backend throws, return the empty list.
The source defaults are `maxSearchResults = config.rag.maxSearchResults`
and `similarityThreshold = 0.7`. -/
def ragSearch (weaviate : String → Nat → Option (List SearchResult))
    (query : String) (maxSearchResults : Nat) (similarityThreshold : Rat) :
    List SearchResult :=
  match weaviate query maxSearchResults with
  | some results => results.filter (fun r => similarityThreshold ≤ r.score)
  | none => []

/-! ## Plugin dispatch (src/services/plugin-manager.ts)

A registered handler exposes a name, an intent predicate and an
execute operation; a thrown JS error is an `Except.error` carrying the
error message.  Success payloads are the tagged union of the known
plugin result shapes. -/

/-- Structured weather data (interface WeatherData). -/
structure WeatherData where
  temperature : Int
  condition : String
  location : String
  timestamp : String
  humidity : Int
  windSpeed : Int
  deriving Repr, DecidableEq

/-- Tagged union of the plugin payload shapes. -/
inductive PluginData where
  | weather (w : WeatherData)
  | math (m : MathResult)
  deriving Repr, DecidableEq

/-- Outcome of one plugin execution (interface PluginResult):
`data` is present on success, `error` on failure. -/
structure PluginResult where
  name : String
  success : Bool
  data : Option PluginData
  error : Option String
  deriving Repr, DecidableEq

/-- A registered plugin handler (interface Plugin). -/
structure Plugin where
  name : String
  detectIntent : String → Bool
  execute : String → Except String PluginResult

/-- The try/catch around one handler execution in
`detectAndExecutePlugins`: a thrown error becomes a failure outcome
carrying the handler's name and the error message. -/
def pluginOutcome (p : Plugin) (message : String) : PluginResult :=
  match p.execute message with
  | .ok r => r
  | .error e => ⟨p.name, false, none, some e⟩

/-- Model of `PluginManager.detectAndExecutePlugins`: walk the
registered handlers in order, execute each whose intent predicate
fires, collecting outcomes (with per-handler failure isolation). -/
def detectAndExecutePlugins (plugins : List Plugin) (message : String) :
    List PluginResult :=
  match plugins with
  | [] => []
  | p :: rest =>
    if p.detectIntent message then
      pluginOutcome p message :: detectAndExecutePlugins rest message
    else
      detectAndExecutePlugins rest message

/-! ## Weather plugin (src/services/plugins/weather.ts)

The external collaborators of `WeatherPlugin` (the OpenWeather fetch
together with its response parsing, `Math.random` for the mock values,
and the clock) are given as an environment.  `fetch` failures of any
kind (network error, non-ok status, JSON shape) are an
`Except.error`. -/

/-- Collaborator behaviour for the weather plugin. -/
structure WeatherEnv where
  apiKey : String
  fetch : String → Except String WeatherData
  mockCondition : String
  mockTemperature : Int
  mockHumidity : Int
  mockWindSpeed : Int
  nowIso : String

/-- Model of `WeatherPlugin.getMockWeather`: synthetic weather data
for the city (the random draws are the environment's mock fields). -/
def getMockWeather (env : WeatherEnv) (city : String) : WeatherData :=
  ⟨env.mockTemperature, env.mockCondition, city, env.nowIso,
    env.mockHumidity, env.mockWindSpeed⟩

/-- Model of `WeatherPlugin.getWeather`: mock data when no API key is
configured; otherwise call the API, and on any thrown error fall back
to mock data.  This function never fails. -/
def getWeather (env : WeatherEnv) (city : String) : WeatherData :=
  if env.apiKey = "" then getMockWeather env city
  else
    match env.fetch city with
    | .ok data => data
    | .error _ => getMockWeather env city

/-- One attempt of the weather intent regex at a fixed position.
The regex is `weather` then one or more whitespace, then an optional
`in` plus whitespace, then a nonempty capture over letters and
whitespace, everything case-insensitive; greedy matching with the
backtracking the regex engine performs when the capture would come
out empty. -/
def matchWeatherAt (l : List Char) : Option (List Char) :=
  match stripCI "weather".data l with
  | none => none
  | some r1 =>
    let ws1 := r1.takeWhile isWsChar
    if ws1.isEmpty then none
    else
      let rest := r1.drop ws1.length
      let inBranch : Option (List Char) :=
        match stripCI "in".data rest with
        | none => none
        | some r2 =>
          let ws2 := r2.takeWhile isWsChar
          if ws2.isEmpty then none
          else
            let r3 := r2.drop ws2.length
            let cap := r3.takeWhile (fun c => isAsciiLetter c || isWsChar c)
            if !cap.isEmpty then some cap
            else if 2 ≤ ws2.length then some (ws2.drop (ws2.length - 1))
            else none
      match inBranch with
      | some cap => some cap
      | none =>
        let cap := rest.takeWhile (fun c => isAsciiLetter c || isWsChar c)
        if !cap.isEmpty then some cap
        else if 2 ≤ ws1.length then some (ws1.drop (ws1.length - 1))
        else none

/-- Leftmost match of the weather intent regex over the message:
the first position at which `matchWeatherAt` succeeds. -/
def weatherScan (l : List Char) : Option (List Char) :=
  match l with
  | [] => none
  | _ :: rest =>
    match matchWeatherAt l with
    | some cap => some cap
    | none => weatherScan rest

/-- Model of `message.match(/weather\s+(?:in\s+)?([a-zA-Z\s]+)/i)`,
returning the captured group. -/
def weatherMatch (message : String) : Option String :=
  (weatherScan message.data).map (fun l => ⟨l⟩)

/-- Model of `WeatherPlugin.detectIntent`. -/
def weatherDetectIntent (message : String) : Bool :=
  (weatherMatch message).isSome

/-- Model of `WeatherPlugin.execute`: re-run the regex, extract and
trim the city, and produce a success outcome from `getWeather` (whose
own fallback means the surrounding try/catch of the source can never
fire). -/
def weatherExecute (env : WeatherEnv) (message : String) : PluginResult :=
  match weatherMatch message with
  | none => ⟨"weather", false, none, some "No city found in message"⟩
  | some captured =>
    let city := jsTrim captured
    ⟨"weather", true, some (.weather (getWeather env city)), none⟩

/-! ## Streaming ingestion (src/services/rag-streaming.ts,
streamChunksFromFile)

The generator reads the file, splits on whitespace, slices windows of
`chunkSize` words, joins and trims each window (skipping windows that
trim to the empty string), and yields batches of `batchSize` chunks
with a final partial batch.  The effectful `id` (uuid) and
`processedAt` metadata fields are omitted; `source` and `fileName`
both carry the file name as in the source record. -/

/-- A produced chunk (interface DocumentChunk, minus the uuid and the
processing timestamp). -/
structure DocumentChunk where
  content : String
  source : String
  fileName : String
  chunkIndex : Nat
  deriving Repr, DecidableEq

/-- The while loop of the generator, one iteration per window of
`chunkSize` words: `batch` is the pending batch, `chunkIndex` the next
index.  The source diverges when `chunkSize = 0` (the loop variable
never advances); the model is restricted to positive window sizes and
returns `[]` at zero. -/
def streamLoop (chunkSize batchSize : Nat) (fileName : String)
    (words : List String) (chunkIndex : Nat) (batch : List DocumentChunk) :
    List (List DocumentChunk) :=
  match words with
  | [] => if batch.isEmpty then [] else [batch]
  | _ :: ws =>
    match chunkSize with
    | 0 => []
    | W + 1 =>
      let chunkContent := jsTrim (joinSp (words.take (W + 1)))
      let next :=
        if chunkContent = "" then (batch, chunkIndex)
        else (batch ++ [⟨chunkContent, fileName, fileName, chunkIndex⟩], chunkIndex + 1)
      if next.1.length = batchSize then
        next.1 :: streamLoop (W + 1) batchSize fileName (ws.drop W) next.2 []
      else
        streamLoop (W + 1) batchSize fileName (ws.drop W) next.2 next.1
  termination_by words.length
  decreasing_by
    all_goals
      simp only [List.length_cons, List.length_drop]
      omega

/-- Model of the generator `streamChunksFromFile`, as the list of the
batches it yields for a given file content. -/
def streamChunksFromFile (content : String) (fileName : String)
    (chunkSize batchSize : Nat) : List (List DocumentChunk) :=
  streamLoop chunkSize batchSize fileName (jsSplitWs content) 0 []

/-- Grouping of a list into consecutive groups of `n` elements with a
trailing partial group (reference combinator used to state what the
generator produces). -/
def groupB (n : Nat) (l : List α) : List (List α) :=
  match l with
  | [] => []
  | x :: xs =>
    match n with
    | 0 => [x :: xs]
    | n + 1 => (x :: xs).take (n + 1) :: groupB (n + 1) (xs.drop n)
  termination_by l.length
  decreasing_by
    simp only [List.length_cons, List.length_drop]
    omega

/-- Reference chunk sequence: the windows of `W` words, each joined
with single spaces, indexed consecutively from `idx`. -/
def refChunks (W : Nat) (fileName : String) (words : List String) (idx : Nat) :
    List DocumentChunk :=
  (List.enumFrom idx (groupB W words)).map
    (fun p => ⟨joinSp p.2, fileName, fileName, p.1⟩)

/-- A token is good when it is nonempty and free of whitespace, which
is what the whitespace-split of a text produces away from the text's
boundaries. -/
def goodToken (w : String) : Bool :=
  !w.data.isEmpty && w.data.all (fun c => !isWsChar c)

/-! ## Agent orchestration (AgentService, src/services/agent.ts)

`processMessage` sequences memory append, memory summary, plugin
dispatch, RAG search, prompt assembly, generation, assistant append
and response assembly.  The external collaborators (Gemini completion,
Weaviate search), the registered plugin handlers, the clock and the
generated uuids form the environment. -/

/-- A normalized retrieval hit as embedded in the agent response
(interface RAGResult). -/
structure RAGResult where
  content : String
  source : String
  score : Rat
  metadata : List (String × String)
  deriving Repr, DecidableEq

/-- One entry of the memory snapshot: role, content and timestamp (the
epoch value whose ISO-8601 rendering the source emits). -/
structure SnapshotEntry where
  role : Role
  content : String
  timestamp : Int
  deriving Repr, DecidableEq

/-- The externally visible response (interface AgentResponse). -/
structure AgentResponse where
  reply : String
  used_chunks : List RAGResult
  plugins_used : List PluginResult
  memory_snapshot : List SnapshotEntry
  session_id : String
  deriving Repr, DecidableEq

/-- Environment of one `processMessage` call: collaborator behaviour
and effect outcomes.  `llm prompt = none` means the Gemini call threw
or timed out. -/
structure AgentEnv where
  weaviate : String → Nat → Option (List SearchResult)
  llm : String → Option String
  plugins : List Plugin
  configMaxMessages : Nat
  maxSearchResults : Nat
  now : Int
  userMsgId : Nat
  assistantMsgId : Nat

/-- Inner loop of `enhanceSearchQuery`'s topic extraction: model of
`message.replace(/what is|define|explain/gi, '')`, removing every
case-insensitive occurrence of the three alternatives, leftmost first
(the alternation can never overlap itself, so sequential removal is
the g-flag behaviour). -/
def stripQueryWords (l : List Char) : List Char :=
  match l with
  | [] => []
  | c :: cs =>
    if (stripCI "what is".data (c :: cs)).isSome then
      stripQueryWords (cs.drop 6)
    else if (stripCI "define".data (c :: cs)).isSome then
      stripQueryWords (cs.drop 5)
    else if (stripCI "explain".data (c :: cs)).isSome then
      stripQueryWords (cs.drop 6)
    else
      c :: stripQueryWords cs
  termination_by l.length
  decreasing_by
    all_goals simp only [List.length_cons, List.length_drop]
    all_goals omega

/-- Model of `AgentService.enhanceSearchQuery`: rewrite definition
questions to a definition-flavoured query and how-to questions to a
tutorial-flavoured query; other messages pass through. -/
def enhanceSearchQuery (message : String) : String :=
  let lower := toLowerStr message
  if jsIncludes lower "what is" || jsIncludes lower "define" ||
      jsIncludes lower "explain" then
    jsTrim ⟨stripQueryWords message.data⟩ ++ " definition overview introduction basics"
  else if jsIncludes lower "how to" || jsIncludes lower "how do" then
    message ++ " guide tutorial steps instructions"
  else
    message

/-- Model of `AgentService.performRAGSearch`: search with the enhanced
query, a threshold of one half and the configured result bound, and
normalize hits to the response shape (the null-coalescing defaults of
the source are identities on total fields).  `ragSearch` already
absorbs backend failures into the empty list. -/
def performRAGSearch (env : AgentEnv) (message : String) : List RAGResult :=
  (ragSearch env.weaviate (enhanceSearchQuery message) env.maxSearchResults
      ((1 : Rat) / 2)).map
    (fun r => ⟨r.content, r.source, r.score, r.metadata⟩)

/-- Rendering of one successful plugin outcome inside the prompt,
following `buildPrompt`'s per-plugin formatting (numeric fields are
rendered by `toString`; a success outcome whose payload does not match
its name renders as the empty detail, a state unreachable through the
plugins of this repository). -/
def pluginPromptLines (idx : Nat) (r : PluginResult) : String :=
  if r.success then
    (toString (idx + 1) ++ ". " ++ r.name.toUpper ++ " Plugin:\n") ++
    (if r.name = "weather" then
      match r.data with
      | some (.weather w) =>
        "   Location: " ++ w.location ++ "\n   Temperature: " ++
          toString w.temperature ++ "°C\n   Condition: " ++ w.condition ++
          "\n   Humidity: " ++ toString w.humidity ++ "%\n   Wind Speed: " ++
          toString w.windSpeed ++ " km/h\n"
      | _ => ""
    else if r.name = "math" then
      match r.data with
      | some (.math m) =>
        "   Expression: " ++ m.expression ++ "\n   Result: " ++
          toString m.result ++ "\n"
      | _ => ""
    else "")
  else
    toString (idx + 1) ++ ". " ++ r.name.toUpper ++ " Plugin: Failed - " ++
      (r.error.getD "") ++ "\n"

/-- Model of `AgentService.buildPrompt`: the fixed-section prompt with
memory, document context, plugin results, the verbatim user message
and the constant instruction block. -/
def buildPrompt (message : String) (memorySummary : String)
    (ragResults : List RAGResult) (pluginResults : List PluginResult) : String :=
  let base :=
    "You are a helpful AI assistant with access to conversation memory, document knowledge, and plugin capabilities.\n\n## CONVERSATION MEMORY\n"
      ++ memorySummary ++ "\n\n## DOCUMENT CONTEXT\n"
  let docs :=
    if ragResults.length > 0 then
      joinWith "\n"
        ((List.enumFrom 0 ragResults).map
          (fun p =>
            toString (p.1 + 1) ++ ". Source: " ++ p.2.source ++ "\nContent: " ++
              p.2.content ++ "\n"))
    else
      "No relevant documents found.\n"
  let plugs :=
    if pluginResults.length > 0 then
      "\n## PLUGIN RESULTS\n" ++
        String.join ((List.enumFrom 0 pluginResults).map
          (fun p => pluginPromptLines p.1 p.2))
    else ""
  base ++ docs ++ plugs ++ "\n## USER MESSAGE\n" ++ message ++
    "\n\n## INSTRUCTIONS\n- You are a knowledgeable AI assistant with expertise in various topics\n- Provide comprehensive, confident responses using your general knowledge\n- When documents contain relevant information, use it to enhance your response with specific details and examples\n- Always cite sources when using document information (e.g., \"According to [filename]...\")\n- When plugin results are available, incorporate them naturally into your response\n- For weather queries, provide a friendly summary of the weather data\n- For math queries, confirm the calculation and provide the result clearly\n- Only say \"I don't have enough information\" for very specific or technical questions you truly cannot answer\n- Be helpful, informative, and confident in your responses\n\n## RESPONSE\n"

/-- The fixed fallback reply `generateAIResponse` substitutes when the
LLM call fails, echoing the user's message. -/
def fallbackReply (originalMessage : String) : String :=
  "I understand you asked: \"" ++ originalMessage ++
    "\". Based on the available context, I can provide some information, but I'm currently experiencing technical difficulties with my AI generation capabilities."

/-- Model of `AgentService.generateAIResponse`: the LLM completion on
the prompt, or the fallback reply if the call throws. -/
def generateAIResponse (llm : String → Option String) (prompt : String)
    (originalMessage : String) : String :=
  match llm prompt with
  | some content => content
  | none => fallbackReply originalMessage

/-- Model of `AgentService.buildResponse`: read the session back (a
`getMemory` call, which touches `lastAccessed`), snapshot its
messages, and assemble the response envelope. -/
def buildResponse (sessions : Store) (now : Int) (sid : String)
    (aiResponse : String) (ragResults : List RAGResult)
    (pluginResults : List PluginResult) : AgentResponse × Store :=
  let (memory, st) := getMemoryStore sessions sid now
  let memorySnapshot :=
    match memory with
    | some s => s.messages.map (fun m => SnapshotEntry.mk m.role m.content m.timestamp)
    | none => []
  (⟨aiResponse, ragResults, pluginResults, memorySnapshot, sid⟩, st)

/-- Model of `AgentService.processMessage` (the plugin-wired pipeline
the spec standardizes on): append the user message, summarize memory,
dispatch plugins, search, build the prompt, generate (with fallback),
append the assistant message, and assemble the response.  Every
failure mode below the memory append is absorbed by the stage models,
so the surrounding catch of the source is unreachable here. -/
def processMessage (env : AgentEnv) (sessions : Store) (sid message : String) :
    AgentResponse × Store :=
  let s1 := storeAddMessage env.configMaxMessages sessions sid env.userMsgId
    .user message env.now
  let (memorySummary, s2) := getFormattedSummaryStore s1 sid env.now 2
  let pluginResults := detectAndExecutePlugins env.plugins message
  let ragResults := performRAGSearch env message
  let prompt := buildPrompt message memorySummary ragResults pluginResults
  let aiResponse := generateAIResponse env.llm prompt message
  let s3 := storeAddMessage env.configMaxMessages s2 sid env.assistantMsgId
    .assistant aiResponse env.now
  buildResponse s3 env.now sid aiResponse ragResults pluginResults

/-! ## Test fixtures for the concrete witnesses -/

/-- Fixture: a handler whose execute operation throws. -/
def probeThrowingPlugin : Plugin :=
  ⟨"thrower", fun _ => true, fun _ => .error "boom"⟩

/-- Fixture: a handler that never matches. -/
def probeSilentPlugin : Plugin :=
  ⟨"silent", fun _ => false, fun _ => .ok ⟨"silent", true, none, none⟩⟩

/-- Fixture: a handler that matches and succeeds. -/
def probeOkPlugin : Plugin :=
  ⟨"ok", fun _ => true, fun _ => .ok ⟨"ok", true, none, none⟩⟩

/-- Fixture search hits scored 0.95, 0.6 and 0.3. -/
def probeHitA : SearchResult := ⟨"a", "alpha", "a.md", 19 / 20, []⟩

/-- Fixture search hit scored 0.6. -/
def probeHitB : SearchResult := ⟨"b", "beta", "b.md", 3 / 5, []⟩

/-- Fixture search hit scored 0.3. -/
def probeHitC : SearchResult := ⟨"c", "gamma", "c.md", 3 / 10, []⟩

/-- Fixture session with early timestamps. -/
def probeSession : SessionMemory := ⟨"s", [], 0, 5, 10⟩

/-- Fixture stale session (last accessed at epoch 0). -/
def probeOldSession : SessionMemory := ⟨"old", [], 0, 0, 10⟩

/-- Fixture fresh session (last accessed at epoch 9999999). -/
def probeNewSession : SessionMemory := ⟨"new", [], 0, 9999999, 10⟩

/-- Fixture weather environment whose external fetch always throws. -/
def probeWeatherEnv : WeatherEnv :=
  ⟨"key", fun _ => .error "network down", "Sunny", 21, 50, 10, "t0"⟩

/-- Fixture agent environment whose LLM collaborator always fails. -/
def probeAgentEnv : AgentEnv :=
  ⟨fun _ _ => some [], fun _ => none, [], 10, 3, 1000, 1, 2⟩

/-! # Theorems

First the shared lemmas, then one theorem per claim (with a witness
where the claim theorem carries hypotheses). -/

/-! ## Plugin dispatch lemmas -/

/-- Dispatch executes exactly the matching handlers, in registration
order, converting each through the per-handler try/catch. -/
theorem dispatch_eq_map_filter (plugins : List Plugin) (message : String) :
    detectAndExecutePlugins plugins message =
      (plugins.filter (fun p => p.detectIntent message)).map
        (fun p => pluginOutcome p message) := by
  induction plugins with
  | nil => rfl
  | cons p rest ih =>
    by_cases h : p.detectIntent message <;>
      simp [detectAndExecutePlugins, h, ih, List.filter_cons]

/-- Claim C4: on a message matching exactly two registered handlers,
dispatch returns exactly two outcomes in registration order, even when
one of the matched handlers throws; a thrown error becomes a failure
outcome with that handler's name and the error message, and does not
prevent the other handler from contributing its outcome. -/
theorem c4_dispatch_two_matches (plugins : List Plugin) (message : String)
    (p1 p2 : Plugin)
    (hm : plugins.filter (fun p => p.detectIntent message) = [p1, p2]) :
    detectAndExecutePlugins plugins message =
      [pluginOutcome p1 message, pluginOutcome p2 message] ∧
    (detectAndExecutePlugins plugins message).length = 2 ∧
    (∀ e, p1.execute message = .error e →
      pluginOutcome p1 message = ⟨p1.name, false, none, some e⟩) ∧
    (∀ e, p2.execute message = .error e →
      pluginOutcome p2 message = ⟨p2.name, false, none, some e⟩) := by
  have hd := dispatch_eq_map_filter plugins message
  rw [hm] at hd
  refine ⟨hd, by rw [hd]; rfl, ?_, ?_⟩ <;>
    · intro e he
      simp [pluginOutcome, he]

/-- Witness for C4 at a concrete registry where the first matching
handler throws and a non-matching handler sits between the matches. -/
theorem c4_witness :
    detectAndExecutePlugins [probeThrowingPlugin, probeSilentPlugin, probeOkPlugin]
        "2 plus 2" =
      [⟨"thrower", false, none, some "boom"⟩, ⟨"ok", true, none, none⟩] := by
  have h := c4_dispatch_two_matches
    [probeThrowingPlugin, probeSilentPlugin, probeOkPlugin] "2 plus 2"
    probeThrowingPlugin probeOkPlugin (by rfl)
  rw [h.1]
  rfl

/-! ## Math plugin theorems -/

/-- Whitespace removal does not change parenthesis counts. -/
theorem count_jsStripWs (s : String) (c : Char) (hc : isWsChar c = false) :
    (jsStripWs s).data.count c = s.data.count c := by
  have : (jsStripWs s).data = s.data.filter (fun x => !isWsChar x) := rfl
  rw [this]
  exact List.count_filter (by simp [hc])

/-- Claim C5: the math handler evaluates standard precedence
(2 + 2 * 5 gives 12), fails on "10 / 0", and fails on every
expression with unbalanced parenthesis counts rather than crashing or
producing a partial result. -/
theorem c5_math_evaluate :
    MathPlugin.evaluate "2 + 2 * 5" = some ⟨"2+2*5", 12⟩ ∧
    MathPlugin.evaluate "10 / 0" = none ∧
    ∀ e : String, e.data.count '(' ≠ e.data.count ')' →
      MathPlugin.evaluate e = none := by
  refine ⟨by with_unfolding_all rfl, by with_unfolding_all rfl, ?_⟩
  intro e hne
  have h1 : (jsStripWs e).data.count '(' ≠ (jsStripWs e).data.count ')' := by
    rw [count_jsStripWs e '(' (by decide), count_jsStripWs e ')' (by decide)]
    exact hne
  have hsafe : MathPlugin.isSafeExpression (jsStripWs e) = false := by
    simp [MathPlugin.isSafeExpression, h1]
  simp [MathPlugin.evaluate, hsafe]

/-- Witness for C5 at the unbalanced expression "(1+2". -/
theorem c5_witness :
    "(1+2".data.count '(' ≠ "(1+2".data.count ')' ∧
    MathPlugin.evaluate "(1+2" = none := by
  refine ⟨by decide, c5_math_evaluate.2.2 "(1+2" (by decide)⟩

/-- Claim C9: the substring test "/0" of the safety check also fires
on benign divisions: "8 / 0.5" has a nonzero divisor and exact
quotient 16 under the mathjs model, yet its cleaned form "8/0.5" is
rejected as unsafe, so evaluate reports failure instead of the
quotient. -/
theorem c9_slash_zero_false_positive :
    MathPlugin.evaluate "8 / 0.5" = none ∧
    mathEval "8/0.5" = some 16 ∧
    MathPlugin.isSafeExpression "8/0.5" = false := by
  refine ⟨by with_unfolding_all rfl, by with_unfolding_all rfl,
    by with_unfolding_all rfl⟩

/-! ## Retrieval theorems -/

/-- Claim C6: retrieval keeps exactly the backend hits scoring at
least the threshold, in the backend's order; under the backend
contract (descending scores, at most maxResults hits) the output is
descending and at most maxResults long. -/
theorem c6_search_threshold (wv : String → Nat → Option (List SearchResult))
    (query : String) (k : Nat) (t : Rat) (rs : List SearchResult)
    (hwv : wv query k = some rs)
    (hsorted : rs.Pairwise (fun a b => b.score ≤ a.score))
    (hlen : rs.length ≤ k) :
    ragSearch wv query k t = rs.filter (fun r => t ≤ r.score) ∧
    (∀ r ∈ ragSearch wv query k t, t ≤ r.score) ∧
    (ragSearch wv query k t).Pairwise (fun a b => b.score ≤ a.score) ∧
    (ragSearch wv query k t).length ≤ k := by
  have he : ragSearch wv query k t = rs.filter (fun r => t ≤ r.score) := by
    simp [ragSearch, hwv]
  refine ⟨he, ?_, ?_, ?_⟩
  · intro r hr
    rw [he] at hr
    rw [List.mem_filter] at hr
    exact of_decide_eq_true hr.2
  · rw [he]
    exact hsorted.sublist (List.filter_sublist rs)
  · rw [he]
    exact (List.length_filter_le _ rs).trans hlen

/-- Witness for C6: threshold 0.9 against backend scores
0.95, 0.6, 0.3 returns exactly the 0.95 hit. -/
theorem c6_witness :
    ragSearch (fun _ _ => some [probeHitA, probeHitB, probeHitC]) "q" 3 (9 / 10) =
      [probeHitA] ∧
    (∀ r ∈ ragSearch (fun _ _ => some [probeHitA, probeHitB, probeHitC]) "q" 3 (9 / 10),
      (9 : Rat) / 10 ≤ r.score) := by
  have h := c6_search_threshold (fun _ _ => some [probeHitA, probeHitB, probeHitC])
    "q" 3 (9 / 10) [probeHitA, probeHitB, probeHitC] rfl
    (by norm_num [List.pairwise_cons, probeHitA, probeHitB, probeHitC])
    (by decide)
  refine ⟨?_, h.2.1⟩
  rw [h.1]
  with_unfolding_all rfl

/-! ## Memory bound theorems (addMessage dynamics) -/

/-- One addMessage step on the retained suffix advances the suffix. -/
theorem addMessageList_drop (M : Nat) (hM : 1 ≤ M) (ms : List MemoryMessage)
    (m : MemoryMessage) :
    addMessageList M (ms.drop (ms.length - M)) m = (ms ++ [m]).drop (ms.length + 1 - M) := by
  have hlen : (ms.drop (ms.length - M)).length = ms.length - (ms.length - M) :=
    List.length_drop _ _
  unfold addMessageList jsSliceNeg
  by_cases hcase : ms.length < M
  · have h0 : ms.length - M = 0 := by omega
    have h0' : ms.length + 1 - M = 0 := by omega
    rw [h0, h0', List.drop_zero, List.drop_zero]
    rw [if_neg (by simp [h0]; omega)]
  · have hMle : M ≤ ms.length := by omega
    have hplen : (ms.drop (ms.length - M)).length = M := by omega
    have hcond : M < (ms.drop (ms.length - M) ++ [m]).length := by
      simp only [List.length_append, List.length_cons, List.length_nil, hplen]
      omega
    rw [if_pos hcond, if_neg (by omega : ¬ M = 0)]
    have hidx : (ms.drop (ms.length - M) ++ [m]).length - M = 1 := by
      simp only [List.length_append, List.length_cons, List.length_nil, hplen]
      omega
    rw [hidx]
    rw [List.drop_append_of_le_length (by omega)]
    rw [List.drop_drop]
    rw [List.drop_append_of_le_length (by omega)]
    congr 2
    omega

/-- Closed form of the addMessage message-list dynamics from an empty
session under a positive bound: after each call the retained list is
the most-recent suffix of everything appended so far. -/
theorem foldl_addMessageList (M : Nat) (hM : 1 ≤ M) (ms : List MemoryMessage) :
    ms.foldl (addMessageList M) [] = ms.drop (ms.length - M) := by
  induction ms using List.reverseRecOn with
  | nil => simp
  | append_singleton ms m ih =>
    rw [List.foldl_append, List.foldl_cons, List.foldl_nil, ih]
    rw [addMessageList_drop M hM ms m]
    congr 1
    simp

/-- Claim C2 (amended to a positive bound): with configured maximum
M at least 1, after any sequence of appends the session retains
exactly the most-recently-appended min(total, M) messages in append
order, so its length never exceeds M. -/
theorem c2_bounded_memory (M : Nat) (hM : 1 ≤ M) (ms : List MemoryMessage) :
    ms.foldl (addMessageList M) [] = ms.drop (ms.length - M) ∧
    (ms.foldl (addMessageList M) []).length = min ms.length M ∧
    (ms.foldl (addMessageList M) []).length ≤ M := by
  have h := foldl_addMessageList M hM ms
  refine ⟨h, ?_, ?_⟩ <;> rw [h, List.length_drop] <;> omega

/-- Counterexample for C2 as stated: with configured maximum 0 the
truncation `messages.slice(-0)` is `slice(0)` and keeps everything, so
after two appends the session holds 2 messages, violating the bound
and the retained-suffix description. -/
theorem c2_counterexample :
    ([⟨1, .user, "a", 0⟩, ⟨2, .user, "b", 0⟩] : List MemoryMessage).foldl
        (addMessageList 0) [] =
      [⟨1, .user, "a", 0⟩, ⟨2, .user, "b", 0⟩] ∧
    ¬ (([⟨1, .user, "a", 0⟩, ⟨2, .user, "b", 0⟩] : List MemoryMessage).foldl
        (addMessageList 0) []).length ≤ 0 := by
  decide

/-- Witness for C2 at M = 2 over three appended messages. -/
theorem c2_witness :
    ([⟨1, .user, "a", 0⟩, ⟨2, .assistant, "b", 1⟩, ⟨3, .user, "c", 2⟩] :
        List MemoryMessage).foldl (addMessageList 2) [] =
      [⟨2, .assistant, "b", 1⟩, ⟨3, .user, "c", 2⟩] := by
  rw [(c2_bounded_memory 2 (by decide)
    [⟨1, .user, "a", 0⟩, ⟨2, .assistant, "b", 1⟩, ⟨3, .user, "c", 2⟩]).1]
  rfl

/-! ## Session map lemmas -/

/-- Setting then getting the same key yields the set value. -/
theorem mapGet_mapSet_self (m : Store) (k : String) (v : SessionMemory) :
    mapGet (mapSet m k v) k = some v := by
  induction m with
  | nil => simp [mapSet, mapGet]
  | cons p rest ih =>
    by_cases h : p.1 = k <;> simp [mapSet, mapGet, h, ih]

/-- Setting one key leaves lookups of other keys unchanged. -/
theorem mapGet_mapSet_ne (m : Store) (k k' : String) (v : SessionMemory)
    (h : k' ≠ k) :
    mapGet (mapSet m k v) k' = mapGet m k' := by
  induction m with
  | nil =>
    simp only [mapSet, mapGet]
    rw [if_neg (fun hh : k = k' => h hh.symm)]
  | cons p rest ih =>
    by_cases hp : p.1 = k
    · subst hp
      simp only [mapSet, if_pos rfl, mapGet]
      rw [if_neg (fun hh : p.1 = k' => h hh.symm), if_neg (fun hh : p.1 = k' => h hh.symm)]
    · simp only [mapSet, if_neg hp, mapGet]
      by_cases hp' : p.1 = k' <;> simp [hp', ih]

/-! ## Summary read-only theorems (C7) -/

/-- Counterexample for C7 as stated: producing a summary goes through
getMemory, which touches the session's last-accessed timestamp, so
the underlying session does change. -/
theorem c7_counterexample :
    (getSummaryStore [("s", probeSession)] "s" 99 2).2 ≠ [("s", probeSession)] ∧
    mapGet (getSummaryStore [("s", probeSession)] "s" 99 2).2 "s" =
      some { probeSession with lastAccessed := 99 } := by
  decide

/-- Claim C7 (amended): producing a summary leaves every session
field except the target's last-accessed timestamp unchanged (messages,
creation timestamp, id, bound, and all other sessions are untouched);
the target's last-accessed is set to the time of the call, exactly the
getMemory touch; and the formatted summary has the same store effect. -/
theorem c7_summary_touches_only_lastAccessed (sessions : Store) (sid : String)
    (now : Int) (cnt : Nat) :
    (∀ k, k ≠ sid →
      mapGet (getSummaryStore sessions sid now cnt).2 k = mapGet sessions k) ∧
    (mapGet sessions sid = none →
      (getSummaryStore sessions sid now cnt).2 = sessions) ∧
    (∀ s, mapGet sessions sid = some s →
      mapGet (getSummaryStore sessions sid now cnt).2 sid =
        some { s with lastAccessed := now }) ∧
    (getFormattedSummaryStore sessions sid now cnt).2 =
      (getSummaryStore sessions sid now cnt).2 := by
  have hfmt : (getFormattedSummaryStore sessions sid now cnt).2 =
      (getSummaryStore sessions sid now cnt).2 := by
    unfold getFormattedSummaryStore
    split
    rename_i summary st heq
    rw [heq]
    split <;> rfl
  cases hm : mapGet sessions sid with
  | none =>
    refine ⟨?_, fun _ => ?_, ?_, hfmt⟩ <;>
      simp [getSummaryStore, getMemoryStore, hm]
  | some s =>
    refine ⟨?_, ?_, ?_, hfmt⟩
    · intro k hk
      simp only [getSummaryStore, getMemoryStore, hm]
      exact mapGet_mapSet_ne sessions sid k _ hk
    · intro hcontra
      exact Option.noConfusion hcontra
    · intro s' hs'
      have hss : s = s' := Option.some.inj hs'
      subst hss
      simp only [getSummaryStore, getMemoryStore, hm]
      exact mapGet_mapSet_self sessions sid _

/-- Witness for C7 (amended) at a concrete store. -/
theorem c7_witness :
    mapGet (getSummaryStore [("s", probeSession)] "s" 99 2).2 "s" =
      some { probeSession with lastAccessed := 99 } ∧
    mapGet (getSummaryStore [("s", probeSession)] "s" 99 2).2 "other" =
      mapGet [("s", probeSession)] "other" := by
  have h := c7_summary_touches_only_lastAccessed [("s", probeSession)] "s" 99 2
  exact ⟨h.2.2.1 probeSession rfl, h.1 "other" (by decide)⟩

/-! ## Eviction theorems (C8) -/

/-- Folding key deletions over the map removes exactly the entries
whose key was collected. -/
theorem foldl_mapDeleteKey (ids : List String) (m : Store) :
    ids.foldl mapDeleteKey m = m.filter (fun p => decide (p.1 ∉ ids)) := by
  induction ids generalizing m with
  | nil => simp
  | cons i ids ih =>
    rw [List.foldl_cons, ih]
    unfold mapDeleteKey
    rw [List.filter_filter]
    refine List.filter_congr ?_
    intro p _
    by_cases h1 : p.1 = i <;> by_cases h2 : p.1 ∈ ids <;>
      simp [h1, h2, List.mem_cons]

/-- Claim C8 (amended): under the Map invariant that keys identify
entries, cleanup removes exactly the sessions whose last-accessed
time is strictly before now minus the age bound and keeps all others;
the method itself returns no value (its TS type is Promise of void),
so no eviction count is reported. -/
theorem c8_evicts_exactly_stale (sessions : Store) (now maxAgeMinutes : Int)
    (hkeys : ∀ p ∈ sessions, ∀ q ∈ sessions, p.1 = q.1 → p = q) :
    (cleanupOldSessions sessions now maxAgeMinutes).1 =
      sessions.filter
        (fun p => decide (now - maxAgeMinutes * 60 * 1000 ≤ p.2.lastAccessed)) ∧
    (cleanupOldSessions sessions now maxAgeMinutes).2 = () := by
  refine ⟨?_, rfl⟩
  unfold cleanupOldSessions
  simp only
  rw [foldl_mapDeleteKey]
  refine List.filter_congr ?_
  intro p hp
  have hiff : (p.1 ∉ (sessions.filter
        (fun q => decide (q.2.lastAccessed < now - maxAgeMinutes * 60 * 1000))).map
          (fun q => q.1)) ↔
      (now - maxAgeMinutes * 60 * 1000 ≤ p.2.lastAccessed) := by
    constructor
    · intro hnotin
      by_contra hlt
      rw [Int.not_le] at hlt
      exact hnotin (List.mem_map.mpr ⟨p, List.mem_filter.mpr ⟨hp, by simpa using hlt⟩, rfl⟩)
    · intro hle hin
      obtain ⟨q, hq, hqk⟩ := List.mem_map.mp hin
      have hqmem := List.mem_filter.mp hq
      have hq2 : q.2.lastAccessed < now - maxAgeMinutes * 60 * 1000 := by
        simpa using hqmem.2
      have : p = q := hkeys p hp q hqmem.1 hqk.symm
      rw [this] at hle
      omega
  simp only [decide_eq_decide]
  exact hiff

/-- Counterexample for the returns-a-count part of C8: two runs with
different eviction counts (one session evicted versus none) return the
same void value, so the return value carries no eviction count. -/
theorem c8_counterexample :
    (cleanupOldSessions [("old", probeOldSession)] 10000000 1).2 =
      (cleanupOldSessions [] 10000000 1).2 ∧
    (cleanupOldSessions [("old", probeOldSession)] 10000000 1).1.length = 0 ∧
    ([("old", probeOldSession)] : Store).length = 1 ∧
    (cleanupOldSessions [] 10000000 1).1.length = 0 ∧
    ([] : Store).length = 0 := by
  refine ⟨rfl, by decide, rfl, rfl, rfl⟩

/-- Witness for C8 (amended): a stale and a fresh session; only the
stale one goes. -/
theorem c8_witness :
    (cleanupOldSessions [("old", probeOldSession), ("new", probeNewSession)]
        10000000 1).1 = [("new", probeNewSession)] := by
  rw [(c8_evicts_exactly_stale [("old", probeOldSession), ("new", probeNewSession)]
    10000000 1 (by decide)).1]
  decide

/-! ## Weather plugin theorems (C10) -/

/-- Claim C10: whenever the weather intent pattern matches and
extracts a city, execute returns a success outcome; in particular a
failing external weather API is replaced by the synthetic mock data,
and so is the no-API-key configuration, so a matched weather request
never produces a failure outcome. -/
theorem c10_weather_matched_never_fails (env : WeatherEnv)
    (message captured : String)
    (hm : weatherMatch message = some captured) :
    (weatherExecute env message).success = true ∧
    (weatherExecute env message).error = none ∧
    (weatherExecute env message).name = "weather" ∧
    (∀ e, env.fetch (jsTrim captured) = .error e →
      weatherExecute env message =
        ⟨"weather", true, some (.weather (getMockWeather env (jsTrim captured))), none⟩) ∧
    (env.apiKey = "" →
      weatherExecute env message =
        ⟨"weather", true, some (.weather (getMockWeather env (jsTrim captured))), none⟩) := by
  unfold weatherExecute
  rw [hm]
  refine ⟨rfl, rfl, rfl, ?_, ?_⟩
  · intro e he
    unfold getWeather
    by_cases hk : env.apiKey = "" <;> simp [hk, he]
  · intro hk
    unfold getWeather
    simp [hk]

/-- Witness for C10: the fetch collaborator throws, yet the matched
request "weather in Paris" yields a successful mock outcome. -/
theorem c10_witness :
    weatherMatch "weather in Paris" = some "Paris" ∧
    weatherExecute probeWeatherEnv "weather in Paris" =
      ⟨"weather", true, some (.weather ⟨21, "Sunny", "Paris", "t0", 50, 10⟩), none⟩ := by
  have hm : weatherMatch "weather in Paris" = some "Paris" := by decide
  have h := c10_weather_matched_never_fails probeWeatherEnv
    "weather in Paris" "Paris" hm
  refine ⟨hm, ?_⟩
  rw [h.2.2.2.1 "network down" rfl]
  rfl

/-! ## Agent orchestration theorems (C3) -/

/-- The last element survives dropping fewer elements than the length. -/
theorem getLast?_drop_of_lt (l : List α) (n : Nat) (h : n < l.length) :
    (l.drop n).getLast? = l.getLast? := by
  conv_rhs => rw [← List.take_append_drop n l]
  rw [List.getLast?_append]
  cases hd : (l.drop n).getLast? with
  | none =>
    simp [List.getLast?_eq_none_iff] at hd
    omega
  | some x => simp [Option.or]

/-- The message just appended is always the last retained message. -/
theorem addMessageList_getLast (M : Nat) (msgs : List MemoryMessage)
    (m : MemoryMessage) :
    (addMessageList M msgs m).getLast? = some m := by
  unfold addMessageList jsSliceNeg
  by_cases hcond : M < (msgs ++ [m]).length
  · rw [if_pos hcond]
    by_cases hM : M = 0
    · rw [if_pos hM]
      exact List.getLast?_concat _
    · rw [if_neg hM]
      rw [getLast?_drop_of_lt _ _ (by simp at hcond ⊢; omega)]
      exact List.getLast?_concat _
  · rw [if_neg hcond]
    exact List.getLast?_concat _

/-- After a storeAddMessage the session exists, ends in the appended
message, and carries the call's timestamp as last-accessed. -/
theorem storeAddMessage_get (configMax : Nat) (sessions : Store) (sid : String)
    (newId : Nat) (role : Role) (content : String) (now : Int) :
    ∃ s, mapGet (storeAddMessage configMax sessions sid newId role content now) sid =
        some s ∧
      s.messages.getLast? = some ⟨newId, role, content, now⟩ ∧
      s.lastAccessed = now := by
  unfold storeAddMessage
  refine ⟨_, mapGet_mapSet_self _ _ _, ?_, rfl⟩
  exact addMessageList_getLast _ _ _

/-- The fallback reply is never the empty string. -/
theorem fallbackReply_ne_empty (m : String) : fallbackReply m ≠ "" := by
  intro h
  have hd : (fallbackReply m).data = [] := congrArg String.data h
  have he : (fallbackReply m).data =
      "I understand you asked: \"".data ++ (m.data ++
        "\". Based on the available context, I can provide some information, but I'm currently experiencing technical difficulties with my AI generation capabilities.".data) := by
    rfl
  rw [he] at hd
  simp at hd

/-- Claim C3: when the external LLM generation call fails, the
pipeline does not abort: the reply is the fixed fallback string
echoing the user's message (and is non-empty), the fallback is
appended to session memory as an assistant message, and the response's
memory snapshot ends with exactly that assistant message. -/
theorem c3_llm_failure_fallback (env : AgentEnv) (sessions : Store)
    (sid message : String) (hllm : ∀ p, env.llm p = none) :
    (processMessage env sessions sid message).1.reply = fallbackReply message ∧
    (processMessage env sessions sid message).1.reply ≠ "" ∧
    (processMessage env sessions sid message).1.memory_snapshot.getLast? =
      some ⟨.assistant, fallbackReply message, env.now⟩ ∧
    (∃ s, mapGet (processMessage env sessions sid message).2 sid = some s ∧
      s.messages.getLast? =
        some ⟨env.assistantMsgId, .assistant, fallbackReply message, env.now⟩) := by
  unfold processMessage
  simp only [generateAIResponse, hllm]
  obtain ⟨s3s, hs3get, hs3last, _⟩ := storeAddMessage_get env.configMaxMessages
    (getFormattedSummaryStore
      (storeAddMessage env.configMaxMessages sessions sid env.userMsgId .user
        message env.now) sid env.now 2).2
    sid env.assistantMsgId .assistant (fallbackReply message) env.now
  unfold buildResponse
  simp only [getMemoryStore, hs3get]
  refine ⟨trivial, fallbackReply_ne_empty message, ?_, ?_⟩
  · simp only [List.getLast?_map, hs3last]
    rfl
  · exact ⟨_, mapGet_mapSet_self _ _ _, by simp only [hs3last]⟩

/-- Witness for C3 at a concrete environment whose LLM always fails. -/
theorem c3_witness :
    (processMessage probeAgentEnv [] "s1" "hello").1.reply = fallbackReply "hello" ∧
    (processMessage probeAgentEnv [] "s1" "hello").1.memory_snapshot.getLast? =
      some ⟨.assistant, fallbackReply "hello", 1000⟩ := by
  have h := c3_llm_failure_fallback probeAgentEnv [] "s1" "hello" (fun _ => rfl)
  exact ⟨h.1, h.2.2.1⟩

/-! ## Streaming ingestion theorems (C1) -/

/-- A string with nonempty character data is not the empty string. -/
theorem string_ne_empty_of_data_ne_nil (s : String) (h : s.data ≠ []) : s ≠ "" := by
  intro he
  rw [he] at h
  exact h rfl

/-- Appending the empty string on the right is the identity. -/
theorem string_append_empty (s : String) : s ++ "" = s := by
  apply String.ext
  show s.data ++ [] = s.data
  simp

/-- Character data of a string concatenation. -/
theorem strData_append (a b : String) : (a ++ b).data = a.data ++ b.data := rfl

/-- Unfolding of the single-space join on two or more tokens, at the
level of character data. -/
theorem joinSp_cons_cons_data (w x : String) (xs : List String) :
    (joinSp (w :: x :: xs)).data = w.data ++ (' ' :: (joinSp (x :: xs)).data) := by
  show ((w ++ " ") ++ joinSp (x :: xs)).data = _
  rw [strData_append, strData_append]
  simp [List.append_assoc]

/-- Trim is the identity on character lists with non-whitespace ends. -/
theorem trimChars_eq_self (l : List Char)
    (h1 : ∀ c, l.head? = some c → isWsChar c = false)
    (h2 : ∀ c, l.getLast? = some c → isWsChar c = false) :
    trimChars l = l := by
  unfold trimChars
  have hd : l.dropWhile isWsChar = l := by
    cases l with
    | nil => rfl
    | cons c cs => rw [List.dropWhile_cons_of_neg (by simp [h1 c rfl])]
  rw [hd]
  have hrev : l.reverse.dropWhile isWsChar = l.reverse := by
    cases hrl : l.reverse with
    | nil => rfl
    | cons c cs =>
      have hc : l.getLast? = some c := by
        rw [← List.head?_reverse, hrl]
        rfl
      rw [List.dropWhile_cons_of_neg (by simp [h2 c hc])]
  rw [hrev, List.reverse_reverse]

/-- Trim strips one trailing whitespace character from a character
list with non-whitespace ends. -/
theorem trimChars_append_ws (l : List Char) (c : Char) (hc : isWsChar c = true)
    (hne : l ≠ [])
    (h1 : ∀ d, l.head? = some d → isWsChar d = false)
    (h2 : ∀ d, l.getLast? = some d → isWsChar d = false) :
    trimChars (l ++ [c]) = l := by
  unfold trimChars
  have hd : (l ++ [c]).dropWhile isWsChar = l ++ [c] := by
    cases l with
    | nil => exact absurd rfl hne
    | cons d ds =>
      rw [List.cons_append, List.dropWhile_cons_of_neg (by simp [h1 d rfl])]
  rw [hd, List.reverse_append]
  simp only [List.reverse_cons, List.reverse_nil, List.nil_append,
    List.singleton_append]
  rw [List.dropWhile_cons_of_pos hc]
  have hrev : l.reverse.dropWhile isWsChar = l.reverse := by
    cases hrl : l.reverse with
    | nil => rfl
    | cons d ds =>
      have hd2 : l.getLast? = some d := by
        rw [← List.head?_reverse, hrl]
        rfl
      rw [List.dropWhile_cons_of_neg (by simp [h2 d hd2])]
  rw [hrev, List.reverse_reverse]

/-- Good tokens have characters. -/
theorem goodToken_data_ne_nil (w : String) (h : goodToken w = true) :
    w.data ≠ [] := by
  unfold goodToken at h
  simp only [Bool.and_eq_true, Bool.not_eq_true'] at h
  intro hcontra
  rw [List.isEmpty_eq_false_iff_exists_mem] at h
  obtain ⟨⟨x, hx⟩, _⟩ := h
  rw [hcontra] at hx
  exact absurd hx (List.not_mem_nil x)

/-- Good tokens contain no whitespace characters. -/
theorem goodToken_no_ws (w : String) (h : goodToken w = true) :
    ∀ c ∈ w.data, isWsChar c = false := by
  unfold goodToken at h
  simp only [Bool.and_eq_true, List.all_eq_true] at h
  intro c hc
  have := h.2 c hc
  simpa using this

/-- The single-space join of a nonempty list of good tokens has
characters. -/
theorem joinSp_data_ne_nil (ws : List String) (hne : ws ≠ [])
    (hws : ∀ w ∈ ws, goodToken w = true) : (joinSp ws).data ≠ [] := by
  cases ws with
  | nil => exact absurd rfl hne
  | cons w ws =>
    have hw := goodToken_data_ne_nil w (hws w (by simp))
    cases ws with
    | nil => simpa [joinSp] using hw
    | cons x xs =>
      intro hcontra
      rw [joinSp_cons_cons_data] at hcontra
      exact hw (List.append_eq_nil.mp hcontra).1

/-- The join of good tokens starts with a non-whitespace character. -/
theorem joinSp_head_no_ws (ws : List String)
    (hws : ∀ w ∈ ws, goodToken w = true) :
    ∀ c, (joinSp ws).data.head? = some c → isWsChar c = false := by
  cases ws with
  | nil => intro c hc; simp [joinSp] at hc
  | cons w ws =>
    intro c hc
    have hw := hws w (by simp)
    obtain ⟨d, ds, hds⟩ := List.exists_cons_of_ne_nil (goodToken_data_ne_nil w hw)
    have hjoin : (joinSp (w :: ws)).data.head? = some d := by
      cases ws with
      | nil => simp [joinSp, hds]
      | cons x xs =>
        rw [joinSp_cons_cons_data, hds]
        rfl
    rw [hjoin] at hc
    have hdc : d = c := Option.some.inj hc
    exact hdc ▸ goodToken_no_ws w hw d (by rw [hds]; simp)

/-- The join of good tokens ends with a non-whitespace character. -/
theorem joinSp_last_no_ws (ws : List String)
    (hws : ∀ w ∈ ws, goodToken w = true) :
    ∀ c, (joinSp ws).data.getLast? = some c → isWsChar c = false := by
  induction ws with
  | nil => intro c hc; simp [joinSp] at hc
  | cons w ws ih =>
    intro c hc
    cases ws with
    | nil =>
      have hw := hws w (by simp)
      have hlast : w.data.getLast? = some c := by simpa [joinSp] using hc
      exact goodToken_no_ws w hw c (List.mem_of_mem_getLast? (by simp [hlast]))
    | cons x xs =>
      have htail : (joinSp (x :: xs)).data ≠ [] :=
        joinSp_data_ne_nil (x :: xs) (by simp) (fun u hu => hws u (by simp [hu]))
      rw [joinSp_cons_cons_data] at hc
      rw [List.getLast?_append_of_ne_nil _ (by simp)] at hc
      have h2 : (' ' :: (joinSp (x :: xs)).data).getLast? =
          (joinSp (x :: xs)).data.getLast? :=
        List.getLast?_append_of_ne_nil [' '] htail
      rw [h2] at hc
      exact ih (fun u hu => hws u (by simp [hu])) c hc

/-- JS trim is the identity on the join of good tokens. -/
theorem jsTrim_joinSp (ws : List String) (hne : ws ≠ [])
    (hws : ∀ w ∈ ws, goodToken w = true) :
    jsTrim (joinSp ws) = joinSp ws := by
  unfold jsTrim
  rw [trimChars_eq_self _ (joinSp_head_no_ws ws hws) (joinSp_last_no_ws ws hws)]

/-- The join of a nonempty list of good tokens is a nonempty string. -/
theorem joinSp_ne_empty (ws : List String) (hne : ws ≠ [])
    (hws : ∀ w ∈ ws, goodToken w = true) : joinSp ws ≠ "" :=
  string_ne_empty_of_data_ne_nil _ (joinSp_data_ne_nil ws hne hws)

/-- Joining with a trailing empty fragment appends one space. -/
theorem joinSp_append_empty (ws : List String) (hne : ws ≠ []) :
    joinSp (ws ++ [""]) = joinSp ws ++ " " := by
  induction ws with
  | nil => exact absurd rfl hne
  | cons w ws ih =>
    cases ws with
    | nil =>
      show joinSp [w, ""] = joinSp [w] ++ " "
      show w ++ " " ++ joinSp [""] = w ++ " "
      exact string_append_empty (w ++ " ")
    | cons x xs =>
      show w ++ " " ++ joinSp ((x :: xs) ++ [""]) = (w ++ " " ++ joinSp (x :: xs)) ++ " "
      rw [ih (by simp)]
      simp [String.append_assoc]

/-- JS trim of the join with a trailing empty fragment recovers the
plain join of the good tokens. -/
theorem jsTrim_joinSp_append_empty (ws : List String) (hne : ws ≠ [])
    (hws : ∀ w ∈ ws, goodToken w = true) :
    jsTrim (joinSp (ws ++ [""])) = joinSp ws := by
  rw [joinSp_append_empty ws hne]
  unfold jsTrim
  have hdata : (joinSp ws ++ " ").data = (joinSp ws).data ++ [' '] := rfl
  rw [hdata, trimChars_append_ws _ ' ' (by decide)
    (joinSp_data_ne_nil ws hne hws) (joinSp_head_no_ws ws hws)
    (joinSp_last_no_ws ws hws)]

/-- Unfolding of the grouping combinator on a nonempty list. -/
theorem groupB_eq_cons (n : Nat) (hn : 0 < n) (l : List α) (hl : l ≠ []) :
    groupB n l = l.take n :: groupB n (l.drop n) := by
  cases l with
  | nil => exact absurd rfl hl
  | cons x xs =>
    cases n with
    | zero => omega
    | succ m =>
      rw [groupB]
      simp

/-- Flattening the groups recovers the original list. -/
theorem groupB_flatten (n : Nat) (l : List α) : (groupB n l).flatten = l := by
  induction n, l using groupB.induct with
  | case1 n => rw [groupB]; rfl
  | case2 x xs => simp [groupB]
  | case3 x xs m ih =>
    rw [groupB_eq_cons (m + 1) (by omega) _ (by simp), List.flatten_cons]
    simp only [List.drop_succ_cons]
    rw [ih]
    exact List.take_append_drop _ _

/-- Groups are nonempty. -/
theorem groupB_mem_ne_nil (n : Nat) (l : List α) :
    ∀ g ∈ groupB n l, g ≠ [] := by
  induction n, l using groupB.induct with
  | case1 n => intro g hg; simp [groupB] at hg
  | case2 x xs =>
    intro g hg
    rw [groupB] at hg
    rw [List.mem_singleton] at hg
    subst hg
    simp
  | case3 x xs m ih =>
    intro g hg
    rw [groupB_eq_cons (m + 1) (by omega) _ (by simp)] at hg
    rcases List.mem_cons.mp hg with hg | hg
    · subst hg
      simp [List.take_cons]
    · simp only [List.drop_succ_cons] at hg
      exact ih g hg

/-- Groups have at most the group size many elements. -/
theorem groupB_mem_length_le (n : Nat) (l : List α) :
    ∀ g ∈ groupB n l, 0 < n → g.length ≤ n := by
  induction n, l using groupB.induct with
  | case1 n => intro g hg; simp [groupB] at hg
  | case2 x xs => intro g _ hn; omega
  | case3 x xs m ih =>
    intro g hg _
    rw [groupB_eq_cons (m + 1) (by omega) _ (by simp)] at hg
    rcases List.mem_cons.mp hg with hg | hg
    · subst hg
      simpa using List.length_take_le (m + 1) (x :: xs)
    · simp only [List.drop_succ_cons] at hg
      exact ih g hg (by omega)

/-- Elements of a group come from the grouped list. -/
theorem groupB_mem_subset (n : Nat) (l : List α) (g : List α)
    (hg : g ∈ groupB n l) : ∀ x ∈ g, x ∈ l := by
  intro x hx
  have : x ∈ (groupB n l).flatten := List.mem_flatten.mpr ⟨g, hg, hx⟩
  rwa [groupB_flatten] at this

/-- The number of groups is the ceiling of length over group size. -/
theorem groupB_length (n : Nat) (l : List α) :
    0 < n → (groupB n l).length = (l.length + n - 1) / n := by
  induction n, l using groupB.induct with
  | case1 n =>
    intro hn
    rw [groupB]
    show 0 = (0 + n - 1) / n
    rw [Nat.div_eq_of_lt (by omega)]
  | case2 x xs => intro hn; omega
  | case3 x xs m ih =>
    intro hn
    rw [groupB_eq_cons (m + 1) (by omega) _ (by simp), List.length_cons]
    simp only [List.drop_succ_cons] at ih ⊢
    rw [ih (by omega)]
    simp only [List.length_drop, List.length_cons]
    have hr : xs.length + 1 + (m + 1) - 1 = xs.length + (m + 1) := by omega
    rw [hr, Nat.add_div_right _ (by omega)]
    by_cases ha : m ≤ xs.length
    · have h1 : xs.length - m + (m + 1) - 1 = xs.length := by omega
      rw [h1]
    · have h1 : xs.length - m + (m + 1) - 1 = m := by omega
      rw [h1, Nat.div_eq_of_lt (by omega), Nat.div_eq_of_lt (by omega)]

/-- Loop equation at the end of the word list. -/
theorem streamLoop_nil (W B : Nat) (fn : String) (idx : Nat)
    (batch : List DocumentChunk) :
    streamLoop W B fn [] idx batch = if batch.isEmpty then [] else [batch] := by
  rw [streamLoop]

/-- Loop equation for one window step with a positive window size. -/
theorem streamLoop_cons (W' B : Nat) (fn w : String) (ws : List String)
    (idx : Nat) (batch : List DocumentChunk) :
    streamLoop (W' + 1) B fn (w :: ws) idx batch =
      if jsTrim (joinSp (w :: ws.take W')) = "" then
        (if batch.length = B then
          batch :: streamLoop (W' + 1) B fn (ws.drop W') idx []
         else streamLoop (W' + 1) B fn (ws.drop W') idx batch)
      else
        (if (batch ++ [DocumentChunk.mk (jsTrim (joinSp (w :: ws.take W'))) fn fn idx]).length = B then
          (batch ++ [DocumentChunk.mk (jsTrim (joinSp (w :: ws.take W'))) fn fn idx]) ::
            streamLoop (W' + 1) B fn (ws.drop W') (idx + 1) []
         else
          streamLoop (W' + 1) B fn (ws.drop W') (idx + 1)
            (batch ++ [DocumentChunk.mk (jsTrim (joinSp (w :: ws.take W'))) fn fn idx])) := by
  rw [streamLoop]
  by_cases h : jsTrim (joinSp (w :: ws.take W')) = "" <;> simp [h]

/-- The reference chunk list is empty on no words. -/
theorem refChunks_nil (W : Nat) (fn : String) (idx : Nat) :
    refChunks W fn [] idx = [] := by
  unfold refChunks
  rw [groupB]
  rfl

/-- Unfolding of the reference chunk list on a window step. -/
theorem refChunks_cons (W' : Nat) (fn w : String) (ws : List String) (idx : Nat) :
    refChunks (W' + 1) fn (w :: ws) idx =
      DocumentChunk.mk (joinSp (w :: ws.take W')) fn fn idx ::
        refChunks (W' + 1) fn (ws.drop W') (idx + 1) := by
  unfold refChunks
  rw [groupB_eq_cons (W' + 1) (by omega) _ (by simp)]
  simp [List.enumFrom]

/-- The contents of the reference chunks are the joined windows. -/
theorem refChunks_map_content (W : Nat) (fn : String) (words : List String)
    (idx : Nat) :
    (refChunks W fn words idx).map (fun c => c.content) =
      (groupB W words).map joinSp := by
  unfold refChunks
  rw [List.map_map]
  have h2 : ((List.enumFrom idx (groupB W words)).map Prod.snd).map joinSp =
      (groupB W words).map joinSp := by
    rw [List.enumFrom_map_snd]
  rw [← h2, List.map_map]
  rfl

/-- The indices of the reference chunks count up from the start. -/
theorem refChunks_map_index (W : Nat) (fn : String) (words : List String)
    (idx : Nat) :
    (refChunks W fn words idx).map (fun c => c.chunkIndex) =
      List.range' idx (groupB W words).length := by
  unfold refChunks
  rw [List.map_map]
  have h2 : ((List.enumFrom idx (groupB W words)).map Prod.fst) =
      List.range' idx (groupB W words).length :=
    List.enumFrom_map_fst _ _
  rw [← h2]
  rfl

/-- Length of the reference chunk list. -/
theorem refChunks_length (W : Nat) (fn : String) (words : List String)
    (idx : Nat) :
    (refChunks W fn words idx).length = (groupB W words).length := by
  simp [refChunks]

/-- The loop on an exhausted word list yields the grouping of the
pending batch (the trailing partial batch, or nothing). -/
theorem streamLoop_groupB_nil (W B : Nat) (hB : 0 < B) (fn : String) (idx : Nat)
    (batch : List DocumentChunk) (hbatch : batch.length < B) :
    streamLoop W B fn [] idx batch = groupB B batch := by
  rw [streamLoop_nil]
  cases batch with
  | nil =>
    rw [groupB]
    simp
  | cons b bs =>
    rw [groupB_eq_cons B hB _ (by simp)]
    rw [List.take_of_length_le (le_of_lt hbatch),
      List.drop_eq_nil_of_le (le_of_lt hbatch)]
    rw [groupB]
    rfl

/-- Main loop invariant: on good tokens and a pending batch below the
bound, the loop yields exactly the grouping of the pending batch
followed by the reference chunks of the remaining words. -/
theorem streamLoop_eq_groupB (B : Nat) (hB : 0 < B) (fn : String) :
    ∀ (n : Nat) (words : List String) (W' idx : Nat)
      (batch : List DocumentChunk),
      words.length ≤ n →
      (∀ w ∈ words, goodToken w = true) →
      batch.length < B →
      streamLoop (W' + 1) B fn words idx batch =
        groupB B (batch ++ refChunks (W' + 1) fn words idx) := by
  intro n
  induction n with
  | zero =>
    intro words W' idx batch hlen hgood hbatch
    have hw : words = [] := List.eq_nil_of_length_eq_zero (by omega)
    subst hw
    rw [refChunks_nil, List.append_nil]
    exact streamLoop_groupB_nil _ B hB fn idx batch hbatch
  | succ n ih =>
    intro words W' idx batch hlen hgood hbatch
    cases words with
    | nil =>
      rw [refChunks_nil, List.append_nil]
      exact streamLoop_groupB_nil _ B hB fn idx batch hbatch
    | cons w ws =>
      have hne : (w :: ws.take W') ≠ ([] : List String) := by simp
      have hgt : ∀ u ∈ w :: ws.take W', goodToken u = true := by
        intro u hu
        rcases List.mem_cons.mp hu with hu | hu
        · exact hgood u (hu ▸ List.mem_cons_self w ws)
        · exact hgood u (List.mem_cons_of_mem w (List.take_subset _ _ hu))
      have htrim : jsTrim (joinSp (w :: ws.take W')) = joinSp (w :: ws.take W') :=
        jsTrim_joinSp _ hne hgt
      have hnem : joinSp (w :: ws.take W') ≠ "" := joinSp_ne_empty _ hne hgt
      have hcc : ¬ jsTrim (joinSp (w :: ws.take W')) = "" := by
        rw [htrim]
        exact hnem
      rw [streamLoop_cons, if_neg hcc, htrim]
      rw [refChunks_cons]
      have hgd : ∀ u ∈ ws.drop W', goodToken u = true :=
        fun u hu => hgood u (List.mem_cons_of_mem w (List.drop_subset _ _ hu))
      have hld : (ws.drop W').length ≤ n := by
        have := List.length_drop W' ws
        simp only [List.length_cons] at hlen
        omega
      have hassoc :
          batch ++ DocumentChunk.mk (joinSp (w :: ws.take W')) fn fn idx ::
              refChunks (W' + 1) fn (ws.drop W') (idx + 1) =
            (batch ++ [DocumentChunk.mk (joinSp (w :: ws.take W')) fn fn idx]) ++
              refChunks (W' + 1) fn (ws.drop W') (idx + 1) := by
        simp
      rw [hassoc]
      by_cases hyield :
          (batch ++ [DocumentChunk.mk (joinSp (w :: ws.take W')) fn fn idx]).length = B
      · rw [if_pos hyield]
        rw [ih (ws.drop W') W' (idx + 1) [] hld hgd (by simpa using hB)]
        rw [List.nil_append]
        have htake :
            ((batch ++ [DocumentChunk.mk (joinSp (w :: ws.take W')) fn fn idx]) ++
                refChunks (W' + 1) fn (ws.drop W') (idx + 1)).take B =
              batch ++ [DocumentChunk.mk (joinSp (w :: ws.take W')) fn fn idx] := by
          rw [← hyield]
          exact List.take_left _ _
        have hdrop :
            ((batch ++ [DocumentChunk.mk (joinSp (w :: ws.take W')) fn fn idx]) ++
                refChunks (W' + 1) fn (ws.drop W') (idx + 1)).drop B =
              refChunks (W' + 1) fn (ws.drop W') (idx + 1) := by
          rw [← hyield]
          exact List.drop_left _ _
        rw [groupB_eq_cons B hB
          (batch ++ [DocumentChunk.mk (joinSp (w :: ws.take W')) fn fn idx] ++
            refChunks (W' + 1) fn (ws.drop W') (idx + 1)) (by simp),
          htake, hdrop]
      · rw [if_neg hyield]
        have hlt : (batch ++ [DocumentChunk.mk (joinSp (w :: ws.take W')) fn fn idx]).length < B := by
          simp only [List.length_append, List.length_cons, List.length_nil] at hyield ⊢
          omega
        exact ih (ws.drop W') W' (idx + 1) _ hld hgd hlt

/-- Appending a trailing empty fragment to good tokens does not change
what the loop yields: the empty fragment either lands in the last
partial window, where the join-and-trim ignores it, or forms a window
of its own that trims to the empty string and is skipped. -/
theorem streamLoop_single_empty (B W' idx : Nat) (hB : 0 < B) (fn : String)
    (batch : List DocumentChunk) :
    streamLoop (W' + 1) B fn [""] idx batch =
      streamLoop (W' + 1) B fn [] idx batch := by
  rw [streamLoop_cons]
  have h0 : jsTrim (joinSp ("" :: List.take W' [])) = "" := by
    simp [joinSp, jsTrim, trimChars]
  rw [if_pos h0]
  by_cases hb : batch.length = B
  · rw [if_pos hb]
    rw [List.drop_nil, streamLoop_nil, streamLoop_nil]
    have hne : batch.isEmpty = false := by
      cases batch with
      | nil => simp at hb; omega
      | cons x xs => rfl
    rw [hne]
    simp
  · rw [if_neg hb, List.drop_nil]

/-- Appending a trailing empty fragment to good tokens does not change
what the loop yields: the empty fragment either lands in the last
partial window, where join-and-trim ignores it, or forms a window of
its own that trims to the empty string and is skipped. -/
theorem streamLoop_trailing_empty (B : Nat) (hB : 0 < B) (fn : String) :
    ∀ (n : Nat) (toks : List String) (W' idx : Nat)
      (batch : List DocumentChunk),
      toks.length ≤ n →
      (∀ w ∈ toks, goodToken w = true) →
      streamLoop (W' + 1) B fn (toks ++ [""]) idx batch =
        streamLoop (W' + 1) B fn toks idx batch := by
  intro n
  induction n with
  | zero =>
    intro toks W' idx batch hlen hgood
    have hw : toks = [] := List.eq_nil_of_length_eq_zero (by omega)
    subst hw
    rw [List.nil_append]
    exact streamLoop_single_empty B W' idx hB fn batch
  | succ n ih =>
    intro toks W' idx batch hlen hgood
    cases toks with
    | nil =>
      rw [List.nil_append]
      exact streamLoop_single_empty B W' idx hB fn batch
    | cons t ts =>
      rw [List.cons_append, streamLoop_cons]
      by_cases hsize : W' ≤ ts.length
      · have htk : (ts ++ [""]).take W' = ts.take W' :=
          List.take_append_of_le_length hsize
        have hdr : (ts ++ [""]).drop W' = ts.drop W' ++ [""] :=
          List.drop_append_of_le_length hsize
        rw [htk, hdr]
        have hgd : ∀ u ∈ ts.drop W', goodToken u = true :=
          fun u hu => hgood u (List.mem_cons_of_mem t (List.drop_subset _ _ hu))
        have hld : (ts.drop W').length ≤ n := by
          have := List.length_drop W' ts
          simp only [List.length_cons] at hlen
          omega
        have hrec : ∀ (idx2 : Nat) (batch2 : List DocumentChunk),
            streamLoop (W' + 1) B fn (ts.drop W' ++ [""]) idx2 batch2 =
              streamLoop (W' + 1) B fn (ts.drop W') idx2 batch2 :=
          fun idx2 batch2 => ih (ts.drop W') W' idx2 batch2 hld hgd
        simp only [hrec]
        exact (streamLoop_cons W' B fn t ts idx batch).symm
      · have hts : ts.length ≤ W' := by omega
        have htk : (ts ++ [""]).take W' = ts ++ [""] :=
          List.take_of_length_le (by simp; omega)
        have htk2 : ts.take W' = ts := List.take_of_length_le hts
        have hdr : (ts ++ [""]).drop W' = [] :=
          List.drop_eq_nil_of_le (by simp; omega)
        have hdr2 : ts.drop W' = [] := List.drop_eq_nil_of_le hts
        rw [htk, hdr]
        have hgood2 : ∀ u ∈ t :: ts, goodToken u = true := hgood
        have hj1 : jsTrim (joinSp (t :: (ts ++ [""]))) = joinSp (t :: ts) := by
          have : t :: (ts ++ [""]) = (t :: ts) ++ [""] := by simp
          rw [this]
          exact jsTrim_joinSp_append_empty (t :: ts) (by simp) hgood2
        rw [hj1]
        rw [streamLoop_cons, htk2, hdr2]
        rw [jsTrim_joinSp (t :: ts) (by simp) hgood2]

/-- The generator's batches on an admissible text are exactly the
grouping of the reference chunks of its tokens. -/
theorem streamChunks_eq_groupB_refChunks (content fn : String) (W B : Nat)
    (hW : 0 < W) (hB : 0 < B) (toks tail : List String)
    (hsplit : jsSplitWs content = toks ++ tail)
    (htail : tail = [] ∨ tail = [""])
    (hgood : ∀ w ∈ toks, goodToken w = true) :
    streamChunksFromFile content fn W B = groupB B (refChunks W fn toks 0) := by
  obtain ⟨W', rfl⟩ : ∃ W', W = W' + 1 := ⟨W - 1, by omega⟩
  unfold streamChunksFromFile
  rw [hsplit]
  have hmain := streamLoop_eq_groupB B hB fn toks.length toks W' 0 []
    le_rfl hgood (by simpa using hB)
  rcases htail with rfl | rfl
  · rw [List.append_nil, hmain, List.nil_append]
  · rw [streamLoop_trailing_empty B hB fn toks.length toks W' 0 [] le_rfl hgood,
      hmain, List.nil_append]

/-- The single-space join distributes over concatenation of nonempty
token lists. -/
theorem joinSp_append (l₂ l₁ : List String) (h1 : l₁ ≠ []) (h2 : l₂ ≠ []) :
    joinSp (l₁ ++ l₂) = joinSp l₁ ++ " " ++ joinSp l₂ := by
  induction l₁ with
  | nil => exact absurd rfl h1
  | cons x l₁ ih =>
    cases l₁ with
    | nil =>
      cases l₂ with
      | nil => exact absurd rfl h2
      | cons y l₂ => rfl
    | cons x2 rest =>
      show joinSp (x :: ((x2 :: rest) ++ l₂)) = (x ++ " " ++ joinSp (x2 :: rest)) ++ " " ++ joinSp l₂
      have hstep : joinSp (x :: ((x2 :: rest) ++ l₂)) =
          x ++ " " ++ joinSp ((x2 :: rest) ++ l₂) := rfl
      rw [hstep, ih (by simp)]
      simp [String.append_assoc]

/-- Joining the per-group joins with single spaces equals joining the
flattened groups, as long as every group is nonempty. -/
theorem joinSp_map_flatten (gs : List (List String))
    (hgs : ∀ g ∈ gs, g ≠ []) :
    joinSp (gs.map joinSp) = joinSp gs.flatten := by
  induction gs with
  | nil => rfl
  | cons g gs ih =>
    cases gs with
    | nil =>
      show joinSp [joinSp g] = joinSp (g ++ [].flatten)
      simp [joinSp]
    | cons g2 gs2 =>
      have hg : g ≠ [] := hgs g (by simp)
      have hflat : (g2 :: gs2).flatten ≠ [] := by
        intro hcontra
        rw [List.flatten_cons] at hcontra
        exact hgs g2 (by simp) (List.append_eq_nil.mp hcontra).1
      have hstep : joinSp ((g :: g2 :: gs2).map joinSp) =
          joinSp g ++ " " ++ joinSp ((g2 :: gs2).map joinSp) := rfl
      rw [hstep, ih (fun u hu => hgs u (by simp [hu]))]
      show _ = joinSp (g ++ (g2 :: gs2).flatten)
      rw [joinSp_append _ _ hg hflat]

/-- Claim C1 (amended to texts that do not begin with whitespace,
stated through the shape of the whitespace split: the split is the
token sequence, possibly with one trailing empty artifact).  For such
a text of N tokens and window W > 0, batch size B > 0, the streaming
chunker yields ceil(N/W) chunks in total, grouped into
ceil(ceil(N/W)/B) batches of at most B chunks each (the trailing
partial batch is yielded, not discarded), the chunk indices are
exactly 0, 1, ... in order, the chunk contents are exactly the
consecutive windows of at most W source tokens joined with single
spaces, and joining all chunk contents with single spaces reproduces
the join of the original token sequence. -/
theorem c1_streaming_chunker (content fn : String) (W B : Nat)
    (hW : 0 < W) (hB : 0 < B) (toks tail : List String)
    (hsplit : jsSplitWs content = toks ++ tail)
    (htail : tail = [] ∨ tail = [""])
    (hgood : ∀ w ∈ toks, goodToken w = true) :
    (streamChunksFromFile content fn W B).flatten.length =
      (toks.length + W - 1) / W ∧
    (streamChunksFromFile content fn W B).length =
      ((toks.length + W - 1) / W + B - 1) / B ∧
    (∀ b ∈ streamChunksFromFile content fn W B, b.length ≤ B) ∧
    (streamChunksFromFile content fn W B).flatten.map (fun c => c.chunkIndex) =
      List.range ((toks.length + W - 1) / W) ∧
    (streamChunksFromFile content fn W B).flatten.map (fun c => c.content) =
      (groupB W toks).map joinSp ∧
    (∀ g ∈ groupB W toks, g.length ≤ W ∧ g ≠ []) ∧
    (groupB W toks).flatten = toks ∧
    joinSp ((streamChunksFromFile content fn W B).flatten.map (fun c => c.content)) =
      joinSp toks := by
  have hout := streamChunks_eq_groupB_refChunks content fn W B hW hB toks tail
    hsplit htail hgood
  have hflat : (streamChunksFromFile content fn W B).flatten =
      refChunks W fn toks 0 := by
    rw [hout, groupB_flatten]
  have hcount : (refChunks W fn toks 0).length = (toks.length + W - 1) / W := by
    rw [refChunks_length, groupB_length W toks hW]
  refine ⟨?_, ?_, ?_, ?_, ?_, ?_, groupB_flatten W toks, ?_⟩
  · rw [hflat, hcount]
  · rw [hout, groupB_length B _ hB, hcount]
  · intro b hb
    rw [hout] at hb
    exact groupB_mem_length_le B _ b hb hB
  · rw [hflat, refChunks_map_index, groupB_length W toks hW, List.range_eq_range']
  · rw [hflat, refChunks_map_content]
  · intro g hg
    exact ⟨groupB_mem_length_le W toks g hg hW, groupB_mem_ne_nil W toks g hg⟩
  · rw [hflat, refChunks_map_content, joinSp_map_flatten _ (groupB_mem_ne_nil W toks),
      groupB_flatten]

/-- Counterexample for C1 as stated: the text " a b" has the two
whitespace-delimited tokens a and b, but its leading whitespace makes
the split produce a leading empty fragment that occupies a window
slot, so with window size 2 the chunker produces 2 chunks (a and b
separately) instead of ceil(2/2) = 1. -/
theorem c1_counterexample :
    wsTokens " a b" = ["a", "b"] ∧
    (streamChunksFromFile " a b" "doc.md" 2 2).flatten.length = 2 ∧
    (streamChunksFromFile " a b" "doc.md" 2 2).flatten.map (fun c => c.content) =
      ["a", "b"] ∧
    ((["a", "b"] : List String).length + 2 - 1) / 2 = 1 ∧
    (2 : Nat) ≠ 1 := by
  have heval : streamChunksFromFile " a b" "doc.md" 2 2 =
      [[DocumentChunk.mk "a" "doc.md" "doc.md" 0,
        DocumentChunk.mk "b" "doc.md" "doc.md" 1]] := by
    have hsplit : jsSplitWs " a b" = ["", "a", "b"] := by decide
    unfold streamChunksFromFile
    rw [hsplit]
    show streamLoop (1 + 1) (1 + 1) "doc.md" ["", "a", "b"] 0 [] = _
    rw [streamLoop_cons, if_neg (by decide), if_neg (by decide)]
    rw [show (["a", "b"] : List String).drop 1 = ["b"] from rfl]
    rw [streamLoop_cons, if_neg (by decide), if_pos (by decide)]
    rw [show ([] : List String).drop 1 = [] from rfl, streamLoop_nil]
    decide
  refine ⟨by decide, ?_, ?_, by decide, by decide⟩
  · rw [heval]
    decide
  · rw [heval]
    decide

/-- Witness for C1 (amended) on a five-token text with window 2 and
batch size 2: three chunks in two batches, the trailing partial batch
included. -/
theorem c1_witness :
    (streamChunksFromFile "aa bb cc dd ee" "doc.md" 2 2).flatten.length = 3 ∧
    (streamChunksFromFile "aa bb cc dd ee" "doc.md" 2 2).length = 2 ∧
    (streamChunksFromFile "aa bb cc dd ee" "doc.md" 2 2).flatten.map
      (fun c => c.chunkIndex) = [0, 1, 2] ∧
    joinSp ((streamChunksFromFile "aa bb cc dd ee" "doc.md" 2 2).flatten.map
      (fun c => c.content)) = joinSp ["aa", "bb", "cc", "dd", "ee"] := by
  have h := c1_streaming_chunker "aa bb cc dd ee" "doc.md" 2 2 (by decide)
    (by decide) ["aa", "bb", "cc", "dd", "ee"] [] (by decide) (Or.inl rfl)
    (by decide)
  refine ⟨h.1, h.2.1, ?_, h.2.2.2.2.2.2.2⟩
  rw [h.2.2.2.1]
  decide
